import Mathlib

/-!
Verification of the lazy sequence engine (`src/iter.ts`, the `LazyIterator`
class with a mutable `operations` array), the optional type (`src/option.ts`)
and the fallible result type (`src/result.ts`) of the `tease` library.

Modelling conventions:
* `Opt α` is the runtime `Option` sum type of the library (`Some`/`None`);
  Lean's own `Option β` is used to model *nullable* TypeScript values, with
  `Option.none` standing for `null`/`undefined`.
* `Res α ε` is the runtime `Result` sum type (`Ok`/`Err`).
* `Exc ε α` models a TypeScript expression that either returns a value or
  throws an exception of type `ε` (`thrown e`).
* A `LazyIterator` object is a record `IterState`: its `source` (a finite
  iterable, modelled as a list), its mutable `operations` array and its
  `reversed` flag.  Each pushed operation is a closure `α → Exc ε (Opt α)`;
  the closure pushed by `skip(n)` captures a mutable counter, so it is
  modelled by the constructor `Op.skipOp n count` that carries the counter's
  current value.  Evaluation returns the updated operations array, which
  models the mutation of the captured counters.
* Object mutation and aliasing of the combinators (`map`, `filter`, … push
  onto `this.operations` and return `this`) are modelled by a `Store`: a list
  of `IterState` records addressed by `Nat` references; a combinator call
  takes a store and a reference and returns the updated store together with
  the reference of the object it returns.
-/

/-- Runtime `Option` type of the library: `Some`/`None`. -/
inductive Opt (α : Type) where
  | some (v : α)
  | none
deriving DecidableEq, Repr

/-- Runtime `Result` type of the library: `Ok`/`Err`. -/
inductive Res (α ε : Type) where
  | ok (v : α)
  | err (e : ε)
deriving DecidableEq, Repr

/-- Outcome of a TypeScript expression: a value, or a thrown exception. -/
inductive Exc (ε α : Type) where
  | ok (v : α)
  | thrown (e : ε)
deriving DecidableEq, Repr

/-- The tagged error classes of `iter.ts` (`IterNegativeNumberError`,
`IterCollectError`, `IterUnzipError`, `IterGroupByError`, `IterSortByError`,
`IterFoldError`).  The message strings they carry are not modelled. -/
inductive IterError where
  | negativeNumber
  | collectError
  | unzipError
  | groupByError
  | sortByError
  | foldError
deriving DecidableEq, Repr

/-- One closure in the `operations` array of a `LazyIterator`.

`fn f` is a stateless pushed closure (from `map`, `filter`, `filterMap`,
`tap`); it may throw (the user callback inside it may throw).

`skipOp n count` is the stateful closure pushed by `skip(n)`:
`(value) => (count++ < n ? Option.none() : Option.some(value))`, with
`count` the current value of the captured counter (initialised to `0` when
`skip` is *called*, i.e. at registration time). -/
inductive Op (α ε : Type) where
  | fn (f : α → Exc ε (Opt α))
  | skipOp (n : Int) (count : Nat)

/-- A `LazyIterator` object: `source`, mutable `operations`, `reversed`. -/
structure IterState (α ε : Type) where
  source : List α
  operations : List (Op α ε)
  reversed : Bool

/-- `Iterator.from(source)`: a fresh iterator with an empty operations
array and `reversed = false`. -/
def mkIter {α ε : Type} (src : List α) : IterState α ε :=
  ⟨src, [], false⟩

/-- Apply one operation closure to a value: result (possibly thrown),
together with the closure's updated captured state (the `skip` counter is
post-incremented on every call). -/
def applyOp {α ε : Type} : Op α ε → α → Exc ε (Opt α) × Op α ε
  | .fn f, v => (f v, .fn f)
  | .skipOp n c, v =>
      (.ok (if (c : Int) < n then .none else .some v), .skipOp n (c + 1))

/-- The inner loop of `evaluate` for one element:
`for (const op of this.operations) { current = current.andThen(op);
if (current.isNone()) break; }`.  When `current` is `None` the remaining
closures are not called (their state is untouched); a thrown exception
propagates and also leaves the remaining closures untouched. -/
def runOps {α ε : Type} : List (Op α ε) → Opt α → Exc ε (Opt α) × List (Op α ε)
  | [], cur => (.ok cur, [])
  | op :: rest, cur =>
      match cur with
      | .none => (.ok .none, op :: rest)
      | .some v =>
          match applyOp op v with
          | (.thrown e, op') => (.thrown e, op' :: rest)
          | (.ok res, op') =>
              let (out, rest') := runOps rest res
              (out, op' :: rest')

/-- `LazyIterator.evaluate`: for each source element, wrap it with
`Option.some(value as NonNullable<T>)`, thread it through the operations in
registration order, and yield it when the final result is `Some`.  A thrown
exception aborts the iteration.  The updated operations array (mutated
counters) is returned alongside. -/
def evaluate {α ε : Type} : List α → List (Op α ε) → Exc ε (List α) × List (Op α ε)
  | [], ops => (.ok [], ops)
  | v :: vs, ops =>
      match runOps ops (.some v) with
      | (.thrown e, ops') => (.thrown e, ops')
      | (.ok res, ops') =>
          match evaluate vs ops' with
          | (.thrown e, ops'') => (.thrown e, ops'')
          | (.ok out, ops'') =>
              (.ok (match res with | .some u => u :: out | .none => out), ops'')

/-- The closure pushed by `map(fn)`:
`(value) => Option.some(fn(value) as NonNullable<U>)` (non-throwing `fn`). -/
def mapStep {α ε : Type} (f : α → α) : Op α ε :=
  .fn (fun v => .ok (.some (f v)))

/-- The closure pushed by `filter(fn)`:
`(value) => (fn(value) ? Option.some(value) : Option.none())`. -/
def filterStep {α ε : Type} (p : α → Bool) : Op α ε :=
  .fn (fun v => .ok (if p v then .some v else .none))

/-- The closure pushed by `tap(fn)` (side effect dropped, value kept):
`(value) => { fn(value); return Option.some(value); }`. -/
def tapStep {α ε : Type} : Op α ε :=
  .fn (fun v => .ok (.some v))

/-- `skip(n)`: pushes the stateful skip closure, counter initialised to 0
at the call (registration), and returns the receiver itself. -/
def skipCall {α ε : Type} (n : Int) (it : IterState α ε) : IterState α ε :=
  { it with operations := it.operations ++ [.skipOp n 0] }

/-- `collect()`: `try { Array.from(this.evaluate()) } catch` — returns
`Ok` of the materialised array (reversed when the `reversed` flag is set),
or `Err(IterCollectError)` when evaluation throws.  The updated object
(with mutated closure counters) is returned alongside. -/
def collectMut {α ε : Type} (it : IterState α ε) :
    Res (List α) IterError × IterState α ε :=
  match evaluate it.source it.operations with
  | (.thrown _, ops') => (.err .collectError, { it with operations := ops' })
  | (.ok l, ops') =>
      (.ok (if it.reversed then l.reverse else l), { it with operations := ops' })

/-! ### Object store: mutation and aliasing of `LazyIterator` objects -/

/-- A heap of `LazyIterator` objects; references are indices. -/
abbrev Store (α ε : Type) := List (IterState α ε)

/-- Dereference (out-of-range reads give a dummy empty iterator; all
claims only use valid references). -/
def getRef {α ε : Type} (st : Store α ε) (r : Nat) : IterState α ε :=
  st.getD r ⟨[], [], false⟩

/-- Overwrite the object at a reference. -/
def setRef {α ε : Type} (st : Store α ε) (r : Nat) (s : IterState α ε) : Store α ε :=
  st.set r s

/-- `Iterator.from(source)`: allocates a fresh object. -/
def fromCall {α ε : Type} (st : Store α ε) (src : List α) : Store α ε × Nat :=
  (st ++ [⟨src, [], false⟩], st.length)

/-- `map(fn)`: `this.operations.push(...); return this;` — pushes onto the
receiver's operations array in place and returns the *same* reference. -/
def mapCall {α ε : Type} (st : Store α ε) (r : Nat) (f : α → α) : Store α ε × Nat :=
  let s := getRef st r
  (setRef st r { s with operations := s.operations ++ [mapStep f] }, r)

/-- `filter(fn)`: `this.operations.push(...); return this;` — same-reference
return, in-place push. -/
def filterCall {α ε : Type} (st : Store α ε) (r : Nat) (p : α → Bool) : Store α ε × Nat :=
  let s := getRef st r
  (setRef st r { s with operations := s.operations ++ [filterStep p] }, r)

/-- `collect()` on an object in the store (the closure counters mutated by
the evaluation are written back to the object). -/
def collectCall {α ε : Type} (st : Store α ε) (r : Nat) :
    Res (List α) IterError × Store α ε :=
  let (res, s') := collectMut (getRef st r)
  (res, setRef st r s')

/-! ### `take`: a structural combinator with its own pulling generator -/

/-- The generator built by `take(n)` for `n > 0`:

```
let count = 0;
for (const value of this.source) {
  if (count === n) break;
  … thread value through this.operations, short-circuit on None …
  if (current.isSome()) { yield current.unwrap(); count++; }
}
```

The `for…of` head pulls the next source element *before* the
`count === n` check runs.  Returns the yielded values (or the thrown
exception), the number of source elements pulled, and the updated
operations array. -/
def takeRun {α ε : Type} (n : Int) :
    List α → List (Op α ε) → Nat → Exc ε (List α) × Nat × List (Op α ε)
  | [], ops, _count => (.ok [], 0, ops)
  | v :: vs, ops, count =>
      if (count : Int) = n then (.ok [], 1, ops)
      else
        match runOps ops (.some v) with
        | (.thrown e, ops') => (.thrown e, 1, ops')
        | (.ok .none, ops') =>
            let (res, p, ops'') := takeRun n vs ops' count
            (res, p + 1, ops'')
        | (.ok (.some u), ops') =>
            match takeRun n vs ops' (count + 1) with
            | (.thrown e, p, ops'') => (.thrown e, p + 1, ops'')
            | (.ok out, p, ops'') => (.ok (u :: out), p + 1, ops'')

/-- `take(n)`, observed through the values its generator produces:
for `n ≤ 0` the method returns `new LazyIterator([])` without touching the
receiver (no pulls); otherwise the generator of `takeRun` drives the
receiver.  Returns produced values (or thrown exception), pull count, and
the receiver's updated operations array. -/
def takeC {α ε : Type} (n : Int) (it : IterState α ε) :
    Exc ε (List α) × Nat × List (Op α ε) :=
  if n ≤ 0 then (.ok [], 0, it.operations)
  else takeRun n it.source it.operations 0

/-- The iterator value returned by `take(n)` in the exception-free case:
`new LazyIterator([])` for `n ≤ 0`, else a fresh iterator over the
generator's output. -/
def takeIter {α ε : Type} (n : Int) (it : IterState α ε) : IterState α ε :=
  if n ≤ 0 then mkIter []
  else
    match takeRun n it.source it.operations 0 with
    | (.ok out, _, _) => mkIter out
    | (.thrown _, _, _) => mkIter []

/-- `nth(n)`:
`const entry = this.skip(n).take(1).collect().ok(); const valueArr =
entry.unwrapOr([]); return valueArr.length > 0 ? Option.some(valueArr[0])
: Option.none();`.
`skip` pushes onto the receiver; `take(1)` pulls through the receiver's
operations; `collect` catches any exception (so `.ok()` turns it into
`None` and `unwrapOr` into `[]`). -/
def nthC {α ε : Type} (n : Int) (it : IterState α ε) : Opt α :=
  match takeC 1 (skipCall n it) with
  | (.thrown _, _, _) => .none
  | (.ok [], _, _) => .none
  | (.ok (v :: _), _, _) => .some v

/-! ### Terminal operations -/

/-- `fold(fn, initial)`: `try { let result = initial; for (const value of
this) result = fn(result, value); return Result.ok(result); } catch …` —
the `for…of` interleaves evaluation of the chain with the accumulator
calls; any exception (from a step or from `fn`) is converted into
`Err(IterFoldError)`. -/
def foldRun {α β ε : Type} (fn : β → α → Exc ε β) :
    List α → List (Op α ε) → β → Exc ε β × List (Op α ε)
  | [], ops, acc => (.ok acc, ops)
  | v :: vs, ops, acc =>
      match runOps ops (.some v) with
      | (.thrown e, ops') => (.thrown e, ops')
      | (.ok .none, ops') => foldRun fn vs ops' acc
      | (.ok (.some u), ops') =>
          match fn acc u with
          | .thrown e => (.thrown e, ops')
          | .ok acc' => foldRun fn vs ops' acc'

/-- `fold` with its try/catch boundary. -/
def foldC {α β ε : Type} (fn : β → α → Exc ε β) (initial : β) (it : IterState α ε) :
    Res β IterError :=
  match foldRun fn it.source it.operations initial with
  | (.thrown _, _) => .err .foldError
  | (.ok r, _) => .ok r

/-- `reduce(fn)`: uses the iterator protocol directly; the first evaluated
element seeds the accumulator (`acc = Opt.none` while no element has been
seen); no try/catch — exceptions propagate. -/
def reduceRun {α ε : Type} (fn : α → α → Exc ε α) :
    List α → List (Op α ε) → Opt α → Exc ε (Opt α) × List (Op α ε)
  | [], ops, acc => (.ok acc, ops)
  | v :: vs, ops, acc =>
      match runOps ops (.some v) with
      | (.thrown e, ops') => (.thrown e, ops')
      | (.ok .none, ops') => reduceRun fn vs ops' acc
      | (.ok (.some u), ops') =>
          match acc with
          | .none => reduceRun fn vs ops' (.some u)
          | .some a =>
              match fn a u with
              | .thrown e => (.thrown e, ops')
              | .ok a' => reduceRun fn vs ops' (.some a')

/-- `reduce`, result only. -/
def reduceC {α ε : Type} (fn : α → α → Exc ε α) (it : IterState α ε) :
    Exc ε (Opt α) :=
  (reduceRun fn it.source it.operations .none).1

/-- `last()`: `return this.reduce((_, curr) => curr);`. -/
def lastC {α ε : Type} (it : IterState α ε) : Exc ε (Opt α) :=
  reduceC (fun _ curr => .ok curr) it

/-- `find(predicate)`: stops at the first evaluated element satisfying the
predicate; no try/catch — exceptions (from steps or the predicate)
propagate. -/
def findRun {α ε : Type} (p : α → Exc ε Bool) :
    List α → List (Op α ε) → Exc ε (Opt α) × List (Op α ε)
  | [], ops => (.ok .none, ops)
  | v :: vs, ops =>
      match runOps ops (.some v) with
      | (.thrown e, ops') => (.thrown e, ops')
      | (.ok .none, ops') => findRun p vs ops'
      | (.ok (.some u), ops') =>
          match p u with
          | .thrown e => (.thrown e, ops')
          | .ok true => (.ok (.some u), ops')
          | .ok false => findRun p vs ops'

/-- `find`, result only. -/
def findC {α ε : Type} (p : α → Exc ε Bool) (it : IterState α ε) : Exc ε (Opt α) :=
  (findRun p it.source it.operations).1

/-- `position(predicate)`: like `find` but returns the index among the
evaluated elements; no try/catch. -/
def positionRun {α ε : Type} (p : α → Exc ε Bool) :
    List α → List (Op α ε) → Nat → Exc ε (Opt Nat) × List (Op α ε)
  | [], ops, _idx => (.ok .none, ops)
  | v :: vs, ops, idx =>
      match runOps ops (.some v) with
      | (.thrown e, ops') => (.thrown e, ops')
      | (.ok .none, ops') => positionRun p vs ops' idx
      | (.ok (.some u), ops') =>
          match p u with
          | .thrown e => (.thrown e, ops')
          | .ok true => (.ok (.some idx), ops')
          | .ok false => positionRun p vs ops' (idx + 1)

/-- `position`, result only. -/
def positionC {α ε : Type} (p : α → Exc ε Bool) (it : IterState α ε) : Exc ε (Opt Nat) :=
  (positionRun p it.source it.operations 0).1

/-- `some(predicate)`: `return this.find(predicate).isSome();`. -/
def someC {α ε : Type} (p : α → Exc ε Bool) (it : IterState α ε) : Exc ε Bool :=
  match findC p it with
  | .thrown e => .thrown e
  | .ok (.some _) => .ok true
  | .ok .none => .ok false

/-- `all(predicate)`: stops at the first `false`; no try/catch. -/
def allRun {α ε : Type} (p : α → Exc ε Bool) :
    List α → List (Op α ε) → Exc ε Bool × List (Op α ε)
  | [], ops => (.ok true, ops)
  | v :: vs, ops =>
      match runOps ops (.some v) with
      | (.thrown e, ops') => (.thrown e, ops')
      | (.ok .none, ops') => allRun p vs ops'
      | (.ok (.some u), ops') =>
          match p u with
          | .thrown e => (.thrown e, ops')
          | .ok false => (.ok false, ops')
          | .ok true => allRun p vs ops'

/-- `all`, result only. -/
def allC {α ε : Type} (p : α → Exc ε Bool) (it : IterState α ε) : Exc ε Bool :=
  (allRun p it.source it.operations).1

/-- `count()`: `let count = 0; for (const _ of this) count++;` — no
try/catch, step exceptions propagate. -/
def countC {α ε : Type} (it : IterState α ε) : Exc ε Nat :=
  match evaluate it.source it.operations with
  | (.thrown e, _) => .thrown e
  | (.ok l, _) => .ok l.length

/-- `groupBy(keyFn)` with a `Map` modelled as an association list in
first-seen key order; wrapped in try/catch producing
`Err(IterGroupByError)`. -/
def groupInsert {α κ : Type} [DecidableEq κ] (k : κ) (v : α) :
    List (κ × List α) → List (κ × List α)
  | [] => [(k, [v])]
  | (k', g) :: rest =>
      if k' = k then (k', g ++ [v]) :: rest else (k', g) :: groupInsert k v rest

/-- The iteration loop of `groupBy`. -/
def groupRun {α κ ε : Type} [DecidableEq κ] (keyFn : α → Exc ε κ) :
    List α → List (Op α ε) → List (κ × List α) → Exc ε (List (κ × List α)) × List (Op α ε)
  | [], ops, groups => (.ok groups, ops)
  | v :: vs, ops, groups =>
      match runOps ops (.some v) with
      | (.thrown e, ops') => (.thrown e, ops')
      | (.ok .none, ops') => groupRun keyFn vs ops' groups
      | (.ok (.some u), ops') =>
          match keyFn u with
          | .thrown e => (.thrown e, ops')
          | .ok k => groupRun keyFn vs ops' (groupInsert k u groups)

/-- `groupBy` with its try/catch boundary. -/
def groupByC {α κ ε : Type} [DecidableEq κ] (keyFn : α → Exc ε κ) (it : IterState α ε) :
    Res (List (κ × List α)) IterError :=
  match groupRun keyFn it.source it.operations [] with
  | (.thrown _, _) => .err .groupByError
  | (.ok groups, _) => .ok groups

/-- A comparison-driven sort in the exception monad; `Array.prototype.sort`
leaves the sequence of comparator calls engine-defined, so the sort is
modelled as an insertion sort calling the comparator on adjacent
placements.  Only the catch behaviour and the sorted result matter to the
claims. -/
def insertSorted {α ε : Type} (cmp : α → α → Exc ε Int) (v : α) :
    List α → Exc ε (List α)
  | [] => .ok [v]
  | w :: ws =>
      match cmp v w with
      | .thrown e => .thrown e
      | .ok c =>
          if c ≤ 0 then .ok (v :: w :: ws)
          else
            match insertSorted cmp v ws with
            | .thrown e => .thrown e
            | .ok ws' => .ok (w :: ws')

/-- Sort the materialised list with the comparator. -/
def sortE {α ε : Type} (cmp : α → α → Exc ε Int) : List α → Exc ε (List α)
  | [] => .ok []
  | v :: vs =>
      match sortE cmp vs with
      | .thrown e => .thrown e
      | .ok vs' => insertSorted cmp v vs'

/-- `sortBy(compareFn)`: `try { const sorted = [...this].sort(compareFn);
return Result.ok(new LazyIterator(sorted)); } catch …` — the spread fully
evaluates the chain inside the try, so both step exceptions and comparator
exceptions become `Err(IterSortByError)`. -/
def sortByC {α ε : Type} (cmp : α → α → Exc ε Int) (it : IterState α ε) :
    Res (IterState α ε) IterError :=
  match evaluate it.source it.operations with
  | (.thrown _, _) => .err .sortByError
  | (.ok l, _) =>
      match sortE cmp l with
      | .thrown _ => .err .sortByError
      | .ok sorted => .ok (mkIter sorted)

/-- `unzip()` on an iterator of pairs: one try/catch pass pushing first and
second components; exceptions become `Err(IterUnzipError)`. -/
def unzipC {β γ ε : Type} (it : IterState (β × γ) ε) :
    Res (List β × List γ) IterError :=
  match evaluate it.source it.operations with
  | (.thrown _, _) => .err .unzipError
  | (.ok l, _) => .ok (l.map Prod.fst, l.map Prod.snd)

/-- The chunk-buffering loop of the generator built by `chunk(size)`:
push each evaluated element onto the current chunk, emit the chunk when it
reaches `size`, and emit the final partial chunk when non-empty. -/
def chunkRun {α : Type} (size : Nat) : List α → List α → List (List α)
  | [], acc => if acc.isEmpty then [] else [acc]
  | v :: vs, acc =>
      let acc' := acc ++ [v]
      if acc'.length = size then acc' :: chunkRun size vs []
      else chunkRun size vs acc'

/-- `chunk(size)` observed through the chunks its returned iterator emits:
`size ≤ 0` yields `Err(IterNegativeNumberError)` from `chunk` itself (an
error value, nothing is raised); otherwise the chunks of the evaluated
elements (materialised by a `collect` on the returned iterator, whose
try/catch converts a step exception into `Err(IterCollectError)`). -/
def chunkEmitted {α ε : Type} (size : Int) (it : IterState α ε) :
    Res (List (List α)) IterError :=
  if size ≤ 0 then .err .negativeNumber
  else
    match evaluate it.source it.operations with
    | (.thrown _, _) => .err .collectError
    | (.ok l, _) => .ok (chunkRun size.toNat l [])

/-! ### Nullable values, `Option`/`Result` constructors and conversions

TypeScript nullable values are modelled as `Option β`: `Option.none` is the
`null`/`undefined` sentinel and `Option.some x` an ordinary value.  The
payload of the library's runtime `Opt` is such a nullable value, so
`Opt.some Option.none` is the representation of "`Some` wrapping `null`" —
the state the specification's invariant rules out. -/

/-- `utils.isNonNullable(value)`: `value !== null && value !== undefined`. -/
def isNonNullable {β : Type} (v : Option β) : Bool :=
  v.isSome

/-- `Option.fromNullable(value)`: `isNonNullable(value) ?
Option.some(value) : Option.none()`. -/
def fromNullable {β : Type} (v : Option β) : Opt (Option β) :=
  if isNonNullable v then .some v else .none

/-- `Option.some(value: NonNullable<T>)`: the declared signature only
admits non-null values, so the constructor is modelled on proper values. -/
def someCtor {β : Type} (x : β) : Opt (Option β) :=
  .some (Option.some x)

/-- `Some.okOr(_defaultValue)`: `return Result.ok(this.value);`. -/
def okOrSome {β ε : Type} (v : β) (_defaultValue : ε) : Res β ε :=
  .ok v

/-- `None.okOr(defaultValue)`: `return Result.err(defaultValue);`. -/
def okOrNone {β ε : Type} (defaultValue : ε) : Res β ε :=
  .err defaultValue

/-- `Ok.ok()` / `Err.ok()`: `Ok` converts its (possibly nullable) stored
value with `Option.fromNullable`; `Err.ok()` is `Option.none()`. -/
def okConv {β ε : Type} (r : Res (Option β) ε) : Opt (Option β) :=
  match r with
  | .ok v => fromNullable v
  | .err _ => .none

/-- `Err.err()` / `Ok.err()`: `Err` converts its stored error with
`Option.fromNullable`; `Ok.err()` is `Option.none()`. -/
def errConv {β ε : Type} (r : Res β (Option ε)) : Opt (Option ε) :=
  match r with
  | .ok _ => .none
  | .err e => fromNullable e

/-- An operations array consisting only of map steps. -/
def mapOps {α ε : Type} (fs : List (α → α)) : List (Op α ε) :=
  fs.map mapStep

/-- Threading a value through a list of map functions in registration
order. -/
def chain {α : Type} (fs : List (α → α)) (v : α) : α :=
  fs.foldl (fun acc f => f acc) v

/-- A registered step whose user callback always throws `e`. -/
def badStep {α ε : Type} (e : ε) : Op α ε :=
  .fn (fun _ => .thrown e)

/-! ## Claims -/

/-- C1: the claim says each step-registering combinator returns a new
sequence value and leaves the receiver unchanged, so that two chains built
from a shared prefix evolve independently.  The code instead pushes onto
the shared `operations` array and returns `this`: after
`s1 = s.map(x => x*2)` and `s2 = s.filter(x => x > 2)`, all three
references denote the same object (`s1` and `s2` are the reference of
`s`), and collecting `s1` yields `[4, 6]` — the filter registered through
`s2` has leaked into `s1`'s step list (value semantics would give
`[2, 4, 6]`). -/
theorem map_filter_mutate_shared_receiver :
    (mapCall (fromCall ([] : Store Int Unit) [1, 2, 3]).1
        (fromCall ([] : Store Int Unit) [1, 2, 3]).2 (fun x => x * 2)).2 =
      (fromCall ([] : Store Int Unit) [1, 2, 3]).2 ∧
    (filterCall
        (mapCall (fromCall ([] : Store Int Unit) [1, 2, 3]).1
          (fromCall ([] : Store Int Unit) [1, 2, 3]).2 (fun x => x * 2)).1
        (fromCall ([] : Store Int Unit) [1, 2, 3]).2 (fun x => decide (2 < x))).2 =
      (fromCall ([] : Store Int Unit) [1, 2, 3]).2 ∧
    (collectCall
        (filterCall
          (mapCall (fromCall ([] : Store Int Unit) [1, 2, 3]).1
            (fromCall ([] : Store Int Unit) [1, 2, 3]).2 (fun x => x * 2)).1
          (fromCall ([] : Store Int Unit) [1, 2, 3]).2 (fun x => decide (2 < x))).1
        (mapCall (fromCall ([] : Store Int Unit) [1, 2, 3]).1
          (fromCall ([] : Store Int Unit) [1, 2, 3]).2 (fun x => x * 2)).2).1 =
      .ok [4, 6] :=
  ⟨rfl, rfl, rfl⟩

/-- C3: the claim says `skip`'s counter lives in per-evaluation state, so
two successive `collect()` calls on a restartable `from(A).skip(n)` return
equal results.  The counter is in fact captured by the closure at
*registration* time, so it persists across terminal calls: on
`from([1,2,3]).skip(1)` the first `collect()` returns `Ok [2,3]` but the
second returns `Ok [1,2,3]` (the counter, already at 3, never skips
again). -/
theorem skip_counter_persists_across_collects :
    (collectMut (skipCall 1 (mkIter (α := Int) (ε := Unit) [1, 2, 3]))).1 = .ok [2, 3] ∧
    (collectMut
        (collectMut (skipCall 1 (mkIter (α := Int) (ε := Unit) [1, 2, 3]))).2).1 =
      .ok [1, 2, 3] :=
  ⟨rfl, rfl⟩

/-- C2 counterexample: the claim says `skip`/`take`/`nth` signal an
invalid-argument error eagerly for negative `n`.  None of them validates:
`skip(-1)` registers a never-skipping step and the chain collects
normally, `take(-1)` silently returns an empty sequence, and `nth(-1)`
returns the first element. -/
theorem negative_arguments_not_validated :
    (collectMut (skipCall (-1) (mkIter (α := Int) (ε := Unit) [1, 2, 3]))).1 =
      .ok [1, 2, 3] ∧
    (collectMut (takeIter (-1) (mkIter (α := Int) (ε := Unit) [1, 2, 3]))).1 = .ok [] ∧
    nthC (-1) (mkIter (α := Int) (ε := Unit) [1, 2, 3]) = .some 1 :=
  ⟨rfl, rfl, rfl⟩

/-- The skip step registered with a negative bound never drops an element
(the counter comparison `count++ < n` is always false), and its counter
still advances once per element seen. -/
theorem evaluate_skip_neg {α ε : Type} (n : Int) (hn : n < 0) (l : List α) :
    ∀ c : Nat,
      evaluate (ε := ε) l [Op.skipOp n c] = (.ok l, [Op.skipOp n (c + l.length)]) := by
  induction l with
  | nil => intro c; simp [evaluate]
  | cons v vs ih =>
      intro c
      have hlt : ¬ ((c : Int) < n) := by omega
      have harith : c + 1 + vs.length = c + (vs.length + 1) := by omega
      simp only [evaluate, runOps, applyOp, if_neg hlt, ih (c + 1), List.length_cons, harith]

/-- C2 amended: for every negative `n`, `skip(n)`, `take(n)` and `nth(n)`
signal nothing: `skip(n)` registers a step that never skips (the chain
evaluates as if `skip(0)` had been called), `take(n)` returns a fresh
empty sequence without touching the receiver, and `nth(n)` behaves as
`nth(0)`, returning the first evaluated element. -/
theorem negative_arguments_behaviour {α ε : Type} (n : Int) (hn : n < 0) (l : List α) :
    (collectMut (skipCall n (mkIter (α := α) (ε := ε) l))).1 = .ok l ∧
    takeIter n (mkIter (α := α) (ε := ε) l) = mkIter [] ∧
    (takeC n (mkIter (α := α) (ε := ε) l)).2.1 = 0 ∧
    nthC n (mkIter (α := α) (ε := ε) l) =
      (match l with | [] => .none | v :: _ => .some v) := by
  have hle : n ≤ 0 := le_of_lt hn
  refine ⟨?_, ?_, ?_, ?_⟩
  · simp [collectMut, skipCall, mkIter, evaluate_skip_neg n hn l 0]
  · simp [takeIter, hle]
  · simp [takeC, hle]
  · have hlt0 : ¬ ((0 : Int) < n) := by omega
    cases l with
    | nil => simp [nthC, takeC, skipCall, mkIter, takeRun]
    | cons v vs =>
        cases vs with
        | nil =>
            simp [nthC, takeC, skipCall, mkIter, takeRun, runOps, applyOp, if_neg hlt0]
        | cons w ws =>
            simp [nthC, takeC, skipCall, mkIter, takeRun, runOps, applyOp, if_neg hlt0]

/-- C2 amended, witness at `n = -1`, `l = [1,2,3]`. -/
theorem negative_arguments_behaviour_witness :
    (-1 : Int) < 0 ∧
      ((collectMut (skipCall (-1) (mkIter (α := Int) (ε := Unit) [1, 2, 3]))).1 =
          .ok [1, 2, 3] ∧
        takeIter (-1) (mkIter (α := Int) (ε := Unit) [1, 2, 3]) = mkIter [] ∧
        (takeC (-1) (mkIter (α := Int) (ε := Unit) [1, 2, 3])).2.1 = 0 ∧
        nthC (-1) (mkIter (α := Int) (ε := Unit) [1, 2, 3]) =
          (match [1, 2, 3] with | [] => .none | v :: _ => .some v)) :=
  ⟨by decide, negative_arguments_behaviour (-1) (by decide) [1, 2, 3]⟩

/-- C10: `take(n)` for `n ≤ 0` (negative included) returns a fresh
sequence over an empty source: collecting it succeeds with the empty
array, nothing is signalled, and the receiver's source is never pulled
(zero pulls). -/
theorem take_nonpositive_empty {α ε : Type} (n : Int) (h : n ≤ 0) (it : IterState α ε) :
    takeIter n it = mkIter [] ∧
    (takeC n it).2.1 = 0 ∧
    (collectMut (takeIter n it)).1 = .ok [] := by
  refine ⟨by simp [takeIter, h], by simp [takeC, h], ?_⟩
  simp [takeIter, h, collectMut, mkIter, evaluate]

/-- C10, witness at `n = -3` on `from([1,2,3])`. -/
theorem take_nonpositive_empty_witness :
    (-3 : Int) ≤ 0 ∧
      (takeIter (-3) (mkIter (α := Int) (ε := Unit) [1, 2, 3]) = mkIter [] ∧
        (takeC (-3) (mkIter (α := Int) (ε := Unit) [1, 2, 3])).2.1 = 0 ∧
        (collectMut (takeIter (-3) (mkIter (α := Int) (ε := Unit) [1, 2, 3]))).1 =
          .ok []) :=
  ⟨by decide, take_nonpositive_empty (-3) (by decide) (mkIter [1, 2, 3])⟩

/-- C4 counterexample: the claim says `take(n).collect()` pulls exactly
`n` elements from the source.  The generator's `for…of` head pulls the
next source element *before* the `count === n` check, so on
`from([1,2,3,4,5]).take(2)` the source is pulled 3 times, not 2 (the
third pulled element is discarded by the `break`). -/
theorem take_pulls_extra_element :
    (takeC 2 (mkIter (α := Int) (ε := Unit) [1, 2, 3, 4, 5])).1 = .ok [1, 2] ∧
    (takeC 2 (mkIter (α := Int) (ε := Unit) [1, 2, 3, 4, 5])).2.1 = 3 ∧
    (takeC 2 (mkIter (α := Int) (ε := Unit) [1, 2, 3, 4, 5])).2.1 ≠ 2 :=
  ⟨rfl, rfl, by decide⟩

/-- A pipeline of map steps accepts every element, transforming it by the
composite function, and carries no mutable state. -/
theorem runOps_mapOps {α ε : Type} (fs : List (α → α)) (v : α) :
    runOps (ε := ε) (mapOps fs) (.some v) = (.ok (.some (chain fs v)), mapOps fs) := by
  induction fs generalizing v with
  | nil => simp [mapOps, runOps, chain]
  | cons f fs ih =>
      have h := ih (f v)
      simp [mapOps, runOps, applyOp, mapStep, chain] at h ⊢
      simp [h]

/-- Pull counting for the `take(n)` generator over a map-only pipeline:
starting from counter value `count ≤ n`, the generator emits the next
`n - count` stepped elements and pulls one further source element (when
one exists) before its `count === n` check stops it. -/
theorem takeRun_mapOps {α ε : Type} (m : Nat) (fs : List (α → α)) (src : List α) :
    ∀ count : Nat, count ≤ m →
      takeRun (ε := ε) (m : Int) src (mapOps fs) count =
        (.ok ((src.take (m - count)).map (chain fs)),
          min (m - count + 1) src.length, mapOps fs) := by
  induction src with
  | nil => intro count _; simp [takeRun]
  | cons v vs ih =>
      intro count hcm
      by_cases hc : count = m
      · subst hc
        have hmin : min 1 (vs.length + 1) = 1 := by omega
        simp [takeRun, Nat.sub_self, List.length_cons, hmin]
      · have hne : ¬ (((count : Nat) : Int) = (m : Int)) := by
          exact_mod_cast hc
        have hrec := ih (count + 1) (by omega)
        have h1 : m - count = (m - (count + 1)) + 1 := by omega
        simp only [takeRun, if_neg hne, runOps_mapOps, hrec]
        rw [h1, List.take_succ_cons]
        simp only [List.map_cons, List.length_cons, Prod.mk.injEq]
        refine ⟨trivial, by omega, trivial⟩

/-- C4 amended: with only map steps registered, `take(n).collect()` for
`n ≥ 1` returns the first `n` stepped elements but pulls
`min(n + 1, length)` elements from the underlying source — one more than
`n` whenever the source has more than `n` elements, because the `for…of`
head pulls before the `count === n` check.  The extra pulled element is
never threaded through the step list: a step that would throw on the
third source element does not fire under `take(2)`. -/
theorem take_pull_count {α ε : Type} (m : Nat) (hm : 1 ≤ m) (src : List α)
    (fs : List (α → α)) :
    takeC (ε := ε) (m : Int) ⟨src, mapOps fs, false⟩ =
      (.ok ((src.take m).map (chain fs)), min (m + 1) src.length, mapOps fs) ∧
    (takeC 2 (⟨[1, 2, 3, 4, 5],
        [Op.fn (fun v => if v = 3 then .thrown () else .ok (.some v))], false⟩ :
        IterState Int Unit)).1 = .ok [1, 2] := by
  constructor
  · have hpos : ¬ ((m : Int) ≤ 0) := by exact_mod_cast not_le.mpr (by omega : 0 < (m : Int))
    have h := takeRun_mapOps (α := α) (ε := ε) m fs src 0 (by omega)
    simp only [takeC, if_neg hpos, Nat.sub_zero] at h ⊢
    exact h
  · rfl

/-- C4 amended, witness at `n = 2` on a 5-element source with no steps. -/
theorem take_pull_count_witness :
    1 ≤ 2 ∧
      (takeC (ε := Unit) ((2 : Nat) : Int) ⟨[9, 8, 7], mapOps [], false⟩ =
          (.ok (([9, 8, 7].take 2).map (chain ([] : List (Int → Int)))),
            min (2 + 1) [9, 8, 7].length, mapOps []) ∧
        (takeC 2 (⟨[1, 2, 3, 4, 5],
            [Op.fn (fun v => if v = 3 then .thrown () else .ok (.some v))], false⟩ :
            IterState Int Unit)).1 = .ok [1, 2]) :=
  ⟨by decide, take_pull_count 2 (by decide) [9, 8, 7] []⟩

/-- C5 counterexample: the claim lists `nth` among the operations that do
not catch, with user-callback exceptions propagating to the caller and
never silently swallowed.  `nth` is implemented as
`this.skip(n).take(1).collect().ok()`, and `collect`'s try/catch eats the
exception: on a one-element sequence whose registered callback throws,
`nth(0)` returns `None` — the exception is swallowed, not propagated. -/
theorem nth_swallows_exception :
    nthC 0 (⟨[1], [badStep ()], false⟩ : IterState Int Unit) = .none := rfl

/-- C5 amended: when a registered step's user callback throws, the
`Result`-returning terminal operations `collect`, `fold`, `groupBy`,
`sortBy`, `unzip` catch the exception and return their operation-specific
failure; `chunk` itself only reports its size validation
(`IterNegativeNumberError` for `size ≤ 0`) and a callback exception during
chunk consumption surfaces as the consuming `collect`'s failure; the
operations `find`, `position`, `some`, `all`, `count`, `reduce`, `last`
do not catch — the exception propagates unhandled; `nth` alone catches
(through its internal `collect`) and returns `Absent`. -/
theorem exception_asymmetry {α β κ γ δ ε : Type} [DecidableEq κ]
    (x : α) (xs : List α) (e : ε) (fn : β → α → Exc ε β) (initial : β)
    (keyFn : α → Exc ε κ) (cmp : α → α → Exc ε Int) (p : α → Exc ε Bool)
    (fn2 : α → α → Exc ε α) (y : γ × δ) (ys : List (γ × δ)) :
    (collectMut (⟨x :: xs, [badStep e], false⟩ : IterState α ε)).1 =
      .err .collectError ∧
    foldC fn initial ⟨x :: xs, [badStep e], false⟩ = .err .foldError ∧
    groupByC keyFn ⟨x :: xs, [badStep e], false⟩ = .err .groupByError ∧
    sortByC cmp ⟨x :: xs, [badStep e], false⟩ = .err .sortByError ∧
    unzipC (⟨y :: ys, [badStep e], false⟩ : IterState (γ × δ) ε) = .err .unzipError ∧
    chunkEmitted 2 (⟨x :: xs, [badStep e], false⟩ : IterState α ε) =
      .err .collectError ∧
    chunkEmitted 0 (⟨x :: xs, [badStep e], false⟩ : IterState α ε) =
      .err .negativeNumber ∧
    findC p ⟨x :: xs, [badStep e], false⟩ = .thrown e ∧
    positionC p ⟨x :: xs, [badStep e], false⟩ = .thrown e ∧
    someC p ⟨x :: xs, [badStep e], false⟩ = .thrown e ∧
    allC p ⟨x :: xs, [badStep e], false⟩ = .thrown e ∧
    countC (⟨x :: xs, [badStep e], false⟩ : IterState α ε) = .thrown e ∧
    reduceC fn2 ⟨x :: xs, [badStep e], false⟩ = .thrown e ∧
    lastC (⟨x :: xs, [badStep e], false⟩ : IterState α ε) = .thrown e ∧
    nthC 0 (⟨x :: xs, [badStep e], false⟩ : IterState α ε) = .none :=
  ⟨rfl, rfl, rfl, rfl, rfl, rfl, rfl, rfl, rfl, rfl, rfl, rfl, rfl, rfl, rfl⟩

/-- Membership in the `dropLast` of a cons decomposes. -/
theorem mem_dropLast_cons {α : Type} {x a : α} {cs : List α}
    (h : x ∈ (a :: cs).dropLast) : x = a ∨ x ∈ cs.dropLast := by
  cases cs with
  | nil => simp at h
  | cons b bs =>
      rw [List.dropLast_cons₂] at h
      rcases List.mem_cons.mp h with h | h
      · exact Or.inl h
      · exact Or.inr h

/-- Structure of the chunk-buffering loop: starting from a partial chunk
shorter than `size`, the emitted chunks concatenate back to the partial
chunk followed by the remaining input, every chunk except the last has
length exactly `size`, and every chunk is non-empty of length at most
`size`. -/
theorem chunkRun_spec {α : Type} (size : Nat) (hs : 0 < size) (l : List α) :
    ∀ acc : List α, acc.length < size →
      (chunkRun size l acc).flatten = acc ++ l ∧
      (∀ c ∈ (chunkRun size l acc).dropLast, c.length = size) ∧
      (∀ c ∈ chunkRun size l acc, c ≠ [] ∧ c.length ≤ size) := by
  induction l with
  | nil =>
      intro acc hacc
      by_cases hle : acc.isEmpty
      · simp [chunkRun, hle, List.isEmpty_iff.mp hle]
      · refine ⟨by simp [chunkRun, hle], ?_, ?_⟩
        · intro c hc; simp [chunkRun, hle] at hc
        · intro c hc
          simp [chunkRun, hle] at hc
          subst hc
          exact ⟨fun hnil => hle (by simp [hnil]), le_of_lt hacc⟩
  | cons v vs ih =>
      intro acc hacc
      by_cases hfull : (acc ++ [v]).length = size
      · have h0 : ([] : List α).length < size := by simpa using hs
        obtain ⟨hj, hdl, hall⟩ := ih [] h0
        refine ⟨?_, ?_, ?_⟩
        · simp [chunkRun, hfull, hj, List.append_assoc]
        · intro c hc
          simp only [chunkRun, hfull, if_pos] at hc
          rcases mem_dropLast_cons hc with h | h
          · subst h; exact hfull
          · exact hdl c h
        · intro c hc
          simp only [chunkRun, hfull, if_pos, List.mem_cons] at hc
          rcases hc with h | h
          · subst h
            exact ⟨by simp, le_of_eq hfull⟩
          · exact hall c h
      · have hlt : (acc ++ [v]).length < size := by
          have : (acc ++ [v]).length = acc.length + 1 := by simp
          omega
        obtain ⟨hj, hdl, hall⟩ := ih (acc ++ [v]) hlt
        refine ⟨?_, ?_, ?_⟩
        · simp only [chunkRun, if_neg hfull, hj, List.append_assoc, List.singleton_append]
        · intro c hc
          simp only [chunkRun, if_neg hfull] at hc
          exact hdl c hc
        · intro c hc
          simp only [chunkRun, if_neg hfull] at hc
          exact hall c hc

/-- C6: `chunk(size)` with `size ≤ 0` yields the error value
`Err(IterNegativeNumberError)` (nothing is raised); with `size > 0` every
emitted chunk except possibly the last has length exactly `size`, every
chunk is non-empty of length at most `size` (so a short last chunk is
still emitted), and the concatenation of the chunks is exactly the list
of evaluated elements; concretely
`from([1,2,3,4,5]).chunk(2)` emits `[[1,2],[3,4],[5]]`. -/
theorem chunk_spec {α ε : Type} (size : Int) (it : IterState α ε) (l : List α)
    (hev : (evaluate it.source it.operations).1 = .ok l) :
    (size ≤ 0 → chunkEmitted size it = .err .negativeNumber) ∧
    (0 < size →
      ∃ cs, chunkEmitted size it = .ok cs ∧
        cs.flatten = l ∧
        (∀ c ∈ cs.dropLast, c.length = size.toNat) ∧
        (∀ c ∈ cs, c ≠ [] ∧ c.length ≤ size.toNat)) ∧
    chunkEmitted 2 (mkIter (α := Int) (ε := ε) [1, 2, 3, 4, 5]) =
      .ok [[1, 2], [3, 4], [5]] := by
  refine ⟨fun hle => by simp [chunkEmitted, hle], fun hpos => ?_, rfl⟩
  have hnle : ¬ size ≤ 0 := not_le.mpr hpos
  have hts : 0 < size.toNat := by omega
  rcases hE : evaluate it.source it.operations with ⟨res, ops'⟩
  rw [hE] at hev
  simp only at hev
  subst hev
  refine ⟨chunkRun size.toNat l [], ?_, ?_⟩
  · simp [chunkEmitted, hnle, hE]
  · have h := chunkRun_spec size.toNat hts l [] (by simpa using hts)
    simpa using h

/-- C6, witness: an unevaluated 5-element sequence with no steps,
`size = 2` (and the `size ≤ 0` branch at `size = -1` via `0 < 2`). -/
theorem chunk_spec_witness :
    (evaluate (mkIter (α := Int) (ε := Unit) [1, 2, 3, 4, 5]).source
        (mkIter (α := Int) (ε := Unit) [1, 2, 3, 4, 5]).operations).1 =
      .ok [1, 2, 3, 4, 5] ∧
    (0 : Int) < 2 ∧
    (∃ cs, chunkEmitted 2 (mkIter (α := Int) (ε := Unit) [1, 2, 3, 4, 5]) = .ok cs ∧
      cs.flatten = [1, 2, 3, 4, 5] ∧
      (∀ c ∈ cs.dropLast, c.length = (2 : Int).toNat) ∧
      (∀ c ∈ cs, c ≠ [] ∧ c.length ≤ (2 : Int).toNat)) :=
  ⟨rfl, by decide,
    ((chunk_spec 2 (mkIter [1, 2, 3, 4, 5]) [1, 2, 3, 4, 5] rfl).2.1 (by decide))⟩

/-- On a chain whose evaluation yields no element, `fold`'s loop body
never runs: the accumulator comes back untouched, whatever the callback
is. -/
theorem foldRun_of_evaluate_nil {α β ε : Type} :
    ∀ (src : List α) (ops : List (Op α ε)),
      (evaluate src ops).1 = .ok [] →
        ∀ (fn : β → α → Exc ε β) (acc : β), (foldRun fn src ops acc).1 = .ok acc := by
  intro src
  induction src with
  | nil => intro ops _ fn acc; rfl
  | cons v vs ih =>
      intro ops hev fn acc
      rcases hR : runOps ops (.some v) with ⟨r, ops'⟩
      cases r with
      | thrown e => simp [evaluate, hR] at hev
      | ok res =>
          rcases hEv : evaluate vs ops' with ⟨r2, ops''⟩
          cases r2 with
          | thrown e => simp [evaluate, hR, hEv] at hev
          | ok out =>
              cases res with
              | some u => simp [evaluate, hR, hEv] at hev
              | none =>
                  have hvs : (evaluate vs ops').1 = .ok [] := by
                    simp [evaluate, hR, hEv] at hev
                    simp [hEv, hev]
                  simp [foldRun, hR, ih ops' hvs fn acc]

/-- On a chain whose evaluation yields no element, `reduce` never sees an
element: the running accumulator comes back untouched. -/
theorem reduceRun_of_evaluate_nil {α ε : Type} :
    ∀ (src : List α) (ops : List (Op α ε)),
      (evaluate src ops).1 = .ok [] →
        ∀ (fn : α → α → Exc ε α) (acc : Opt α),
          (reduceRun fn src ops acc).1 = .ok acc := by
  intro src
  induction src with
  | nil => intro ops _ fn acc; rfl
  | cons v vs ih =>
      intro ops hev fn acc
      rcases hR : runOps ops (.some v) with ⟨r, ops'⟩
      cases r with
      | thrown e => simp [evaluate, hR] at hev
      | ok res =>
          rcases hEv : evaluate vs ops' with ⟨r2, ops''⟩
          cases r2 with
          | thrown e => simp [evaluate, hR, hEv] at hev
          | ok out =>
              cases res with
              | some u => simp [evaluate, hR, hEv] at hev
              | none =>
                  have hvs : (evaluate vs ops').1 = .ok [] := by
                    simp [evaluate, hR, hEv] at hev
                    simp [hEv, hev]
                  simp [reduceRun, hR, ih ops' hvs fn acc]

/-- The seeding behaviour of `reduce` with a non-throwing callback: with
no accumulator yet, the first evaluated element seeds it and the rest are
folded onto it; with an accumulator, all evaluated elements are folded. -/
theorem reduceRun_pure {α ε : Type} (fn : α → α → α) :
    ∀ (src : List α) (ops : List (Op α ε)) (l : List α),
      (evaluate src ops).1 = .ok l →
        ∀ acc : Opt α,
          (reduceRun (fun a b => .ok (fn a b)) src ops acc).1 =
            .ok (match acc, l with
                 | .none, [] => .none
                 | .none, x :: xs => .some (xs.foldl fn x)
                 | .some a, l2 => .some (l2.foldl fn a)) := by
  intro src
  induction src with
  | nil =>
      intro ops l hev acc
      have hl : l = [] := by simpa [evaluate] using hev.symm
      subst hl
      cases acc <;> rfl
  | cons v vs ih =>
      intro ops l hev acc
      rcases hR : runOps ops (.some v) with ⟨r, ops'⟩
      cases r with
      | thrown e => simp [evaluate, hR] at hev
      | ok res =>
          rcases hEv : evaluate vs ops' with ⟨r2, ops''⟩
          cases r2 with
          | thrown e => simp [evaluate, hR, hEv] at hev
          | ok out =>
              have hvs : (evaluate vs ops').1 = .ok out := by simp [hEv]
              cases res with
              | none =>
                  simp only [evaluate, hR, hEv, Exc.ok.injEq] at hev
                  subst hev
                  simp [reduceRun, hR, ih ops' out hvs acc]
              | some u =>
                  simp only [evaluate, hR, hEv, Exc.ok.injEq] at hev
                  subst hev
                  cases acc with
                  | none =>
                      simp [reduceRun, hR, ih ops' out hvs (.some u)]
                  | some a =>
                      simp [reduceRun, hR, ih ops' out hvs (.some (fn a u)),
                        List.foldl_cons]

/-- C7: on a chain whose evaluation yields no element, `reduce(fn)`
returns `Absent` and `fold(fn, initial)` returns `Ok initial`, for every
callback (so the callback is observationally never called); on a chain
evaluating to `x :: xs`, `reduce` seeds its accumulator with the first
element `x` (no initial value) and folds the rest onto it. -/
theorem reduce_fold_empty_and_seeding {α β ε : Type} (it : IterState α ε)
    (fn : α → α → α) (fnB : β → α → β) (initial : β) (x : α) (xs : List α) :
    ((evaluate it.source it.operations).1 = .ok [] →
        reduceC (fun a b => .ok (fn a b)) it = .ok .none ∧
        foldC (fun acc v => .ok (fnB acc v)) initial it = .ok initial) ∧
    ((evaluate it.source it.operations).1 = .ok (x :: xs) →
        reduceC (fun a b => .ok (fn a b)) it = .ok (.some (xs.foldl fn x))) := by
  constructor
  · intro hev
    constructor
    · have h := reduceRun_of_evaluate_nil it.source it.operations hev
        (fun a b => .ok (fn a b)) .none
      simpa [reduceC] using h
    · have h := foldRun_of_evaluate_nil it.source it.operations hev
        (fun acc v => .ok (fnB acc v)) initial
      rcases hF : foldRun (fun acc v => .ok (fnB acc v)) it.source it.operations initial
        with ⟨fr, opsF⟩
      rw [hF] at h
      simp only at h
      subst h
      simp [foldC, hF]
  · intro hev
    have h := reduceRun_pure fn it.source it.operations (x :: xs) hev .none
    simpa [reduceC] using h

/-- C7, witness: an all-filtered 3-element chain for the empty case, and
`from([5,7])` for the seeding case. -/
theorem reduce_fold_empty_and_seeding_witness :
    ((evaluate (⟨[1, 2, 3], [filterStep (fun _ => false)], false⟩ :
          IterState Int Unit).source
        (⟨[1, 2, 3], [filterStep (fun _ => false)], false⟩ :
          IterState Int Unit).operations).1 = .ok [] ∧
      reduceC (fun a b => .ok (a + b))
          (⟨[1, 2, 3], [filterStep (fun _ => false)], false⟩ : IterState Int Unit) =
        .ok .none ∧
      foldC (fun acc v => .ok (acc + v)) (42 : Int)
          (⟨[1, 2, 3], [filterStep (fun _ => false)], false⟩ : IterState Int Unit) =
        .ok 42) ∧
    ((evaluate (mkIter (α := Int) (ε := Unit) [5, 7]).source
        (mkIter (α := Int) (ε := Unit) [5, 7]).operations).1 = .ok [5, 7] ∧
      reduceC (fun a b => .ok (a + b)) (mkIter (α := Int) (ε := Unit) [5, 7]) =
        .ok (.some ([7].foldl (fun a b => a + b) 5))) :=
  ⟨⟨rfl,
      ((reduce_fold_empty_and_seeding
            (⟨[1, 2, 3], [filterStep (fun _ => false)], false⟩ : IterState Int Unit)
            (fun a b => a + b) (fun acc v => acc + v) 42 0 []).1 rfl).1,
      ((reduce_fold_empty_and_seeding
            (⟨[1, 2, 3], [filterStep (fun _ => false)], false⟩ : IterState Int Unit)
            (fun a b => a + b) (fun acc v => acc + v) 42 0 []).1 rfl).2⟩,
    ⟨rfl,
      (reduce_fold_empty_and_seeding (mkIter (α := Int) (ε := Unit) [5, 7])
          (fun a b => a + b) (fun acc v => acc + v) 42 5 [7]).2 rfl⟩⟩

/-- C8 counterexample: the claim says no `Present` ever wraps a
null-equivalent value, including values lifted during sequence
evaluation.  The lifts are unchecked casts (`value as NonNullable<T>`,
`fn(value) as NonNullable<U>`): a `map` step whose callback returns
`null` produces `Some(null)` inside the pipeline, and `evaluate` wraps a
`null` source element in `Some` and yields it unchanged. -/
theorem present_wraps_null :
    (runOps (ε := Unit) [mapStep (fun _ => (Option.none : Option Nat))]
        (.some (Option.some 1))).1 = .ok (.some Option.none) ∧
    (evaluate (ε := Unit) [(Option.none : Option Nat)] []).1 = .ok [Option.none] :=
  ⟨rfl, rfl⟩

/-- C8 amended: the constructors that honour their declared types never
produce a `Present` holding `null` — `fromNullable` maps a null-equivalent
to `Absent` (the `None` variant is the sole representation of absence) and
`Option.some`'s `NonNullable` signature only admits proper values — but
the unchecked `as NonNullable` casts in the `map` step and in `evaluate`'s
lifting do wrap `null` when a callback returns it or the source yields
it. -/
theorem present_null_discipline {β : Type} (x : β) :
    fromNullable (Option.some x) = .some (Option.some x) ∧
    fromNullable (Option.none : Option β) = .none ∧
    someCtor x = .some (Option.some x) ∧
    (runOps (ε := Unit) [mapStep (fun _ => (Option.none : Option β))]
        (.some (Option.some x))).1 = .ok (.some Option.none) ∧
    (evaluate (ε := Unit) [(Option.none : Option β)] []).1 = .ok [Option.none] :=
  ⟨rfl, rfl, rfl, rfl, rfl⟩

/-- C9 counterexample: the claim says `success(x).toOptionalOk()` is
`Present(x)` and `failure(e).toOptionalErr()` is `Present(e)` for *every*
value.  `Ok.ok()` and `Err.err()` convert through `Option.fromNullable`,
so a success (resp. failure) holding `null` converts to `Absent`, not to
a `Present` of the stored value. -/
theorem conversion_drops_null :
    okConv (Res.ok (ε := Unit) (Option.none : Option Nat)) = Opt.none ∧
    okConv (Res.ok (ε := Unit) (Option.none : Option Nat)) ≠ Opt.some Option.none ∧
    errConv (Res.err (α := Nat) (Option.none : Option Nat)) = Opt.none :=
  ⟨rfl, by decide, rfl⟩

/-- C9 amended: `Some(x).okOr(e) = Ok(x)` and `None.okOr(e) = Err(e)`
unconditionally; `Ok(x).ok() = Some(x)` and `Err(e).err() = Some(e)` for
every *non-null* stored value — a null stored value converts to `None`
through `Option.fromNullable`. -/
theorem option_result_conversions {β ε : Type} (x : β) (e d : ε) :
    okOrSome x d = .ok x ∧
    okOrNone (β := β) d = .err d ∧
    okConv (Res.ok (ε := ε) (Option.some x)) = .some (Option.some x) ∧
    errConv (Res.err (α := β) (Option.some e)) = .some (Option.some e) :=
  ⟨rfl, rfl, rfl, rfl⟩
